import Mathlib

/-!
Verification of the NNTP retrieval client `nw.go`.

The Go program is embedded shallowly: the network stream is modelled as a
list of lines, where each element is exactly what one call of
`reader.ReadString('\n')` would return (the line including its trailing
linefeed); an empty list means the next read fails (EOF / timeout).
Commands written to the connection are collected in a list of strings.
Times are modelled as integers (an abstract linearly ordered timestamp);
the Go standard library's `time.Parse` is abstracted as a parameter
`tp : String → Option Int`, while the string preprocessing that
`parseDate` performs around it is modelled exactly.
-/

/-- Model of Go `strings.HasPrefix` (byte-for-byte prefix test; our lines
are ASCII so characters and bytes coincide). -/
def hasPrefixGo (s pre : String) : Bool :=
  List.isPrefixOf pre.data s.data

/-- Model of Go `strings.Split(s, sep)` for a one-character separator:
splits at every occurrence, keeping empty fields. -/
def splitOnCharAux (c : Char) : List Char → List Char → List String
  | [], cur => [String.mk cur.reverse]
  | x :: xs, cur =>
    if x = c then String.mk cur.reverse :: splitOnCharAux c xs []
    else splitOnCharAux c xs (x :: cur)

/-- `strings.Split(s, "\t")`-style splitting (`nw.go` line 193). -/
def splitOnChar (c : Char) (s : String) : List String :=
  splitOnCharAux c s.data []

/-- Model of Go `strings.Fields` (split on whitespace runs, dropping
empty fields), used on the GROUP response (`nw.go` line 137). -/
def goFields (s : String) : List String :=
  ((List.splitOnP (fun c => c.isWhitespace) s.data).map String.mk).filter
    (fun t => t ≠ (""))

/-- Digit-string accumulator for `atoi`. -/
def digitsValAux : List Char → Nat → Option Nat
  | [], acc => some acc
  | c :: cs, acc =>
    if c.isDigit then digitsValAux cs (acc * 10 + (c.toNat - 48)) else none

/-- Model of Go `strconv.Atoi`: optional sign followed by at least one
digit (overflow behaviour is irrelevant at the article numbers in play). -/
def atoi (s : String) : Option Int :=
  match s.data with
  | [] => none
  | '-' :: cs =>
    match cs with
    | [] => none
    | _ => (digitsValAux cs 0).map (fun n => -(n : Int))
  | '+' :: cs =>
    match cs with
    | [] => none
    | _ => (digitsValAux cs 0).map (fun n => (n : Int))
  | cs => (digitsValAux cs 0).map (fun n => (n : Int))

/-- Decimal digits of a natural number (fuel-driven so the kernel can
reduce it; `fuel ≥ 1 + digits` always suffices and we pass `n + 1`). -/
def natToDigits (fuel n : Nat) : List Char :=
  match fuel with
  | 0 => []
  | f + 1 =>
    if n < 10 then [Char.ofNat (48 + n)]
    else natToDigits f (n / 10) ++ [Char.ofNat (48 + n % 10)]

/-- Model of Go `fmt` `%d` for `int`. -/
def intStr (i : Int) : String :=
  if i < 0 then ("-") ++ String.mk (natToDigits ((-i).toNat + 1) (-i).toNat)
  else String.mk (natToDigits (i.toNat + 1) i.toNat)

/-- Model of Go `strings.TrimSpace` (ASCII whitespace; the exotic Unicode
space classes never occur in NNTP Date headers). -/
def goTrimSpace (s : String) : String :=
  String.mk (((s.data.dropWhile Char.isWhitespace).reverse.dropWhile
    Char.isWhitespace).reverse)

/-- The characters strictly before the first occurrence of `" ("`, or
`none` when the two-character pattern does not occur. -/
def truncAux : List Char → Option (List Char)
  | [] => none
  | [_] => none
  | a :: b :: rest =>
    if a = ' ' ∧ b = '(' then some []
    else
      match truncAux (b :: rest) with
      | some pre => some (a :: pre)
      | none => none

/-- Model of `nw.go` lines 119–121: `idx := strings.Index(dateStr, " (")`
and truncation only when `idx > 0` (an occurrence at index 0 leaves the
string unchanged, exactly as in the Go code). -/
def goParenTrunc (s : String) : String :=
  match truncAux s.data with
  | some [] => s
  | some pre => String.mk pre
  | none => s

/-- `parseDate` (`nw.go` lines 117–123): trim whitespace, cut a
parenthetical timezone-name suffix, then hand the string to the standard
library's `time.Parse`, abstracted here as `tp`. -/
def parseDate (tp : String → Option Int) (dateStr : String) : Option Int :=
  tp (goParenTrunc (goTrimSpace dateStr))

/-- Dot-unstuffing of one body line (`nw.go` lines 257–259): a line whose
first two characters are `..` loses its first character; every other line
passes through unchanged. -/
def unstuff (l : String) : String :=
  if hasPrefixGo l ("..") then String.mk (l.data.drop 1) else l

/-- Concatenation of a list of strings (used only to state theorems). -/
def concatList : List String → String
  | [] => ""
  | s :: ss => s ++ concatList ss

/-- Fetch errors of `fetchArticle`: a failed read, or a status line that
does not begin with `220 `. -/
inductive FetchErr where
  | readFailed : FetchErr
  | unavailable : String → FetchErr
deriving DecidableEq

/-- The body loop of `fetchArticle` (`nw.go` lines 249–261): read lines
until the exact line `".\r\n"`, unstuffing each body line into the
accumulated article text; `none` models a read error (stream exhausted). -/
def readArticleBody : List String → String → Option (String × List String)
  | [], _ => none
  | l :: ls, acc =>
    if l = (".\r\n") then some (acc, ls)
    else readArticleBody ls (acc ++ unstuff l)

/-- `fetchArticle` (`nw.go` lines 236–267): returns the reassembled
article text (status line verbatim, unstuffed body, synthetic final
`".\r\n"`) together with the part of the stream that remains unread. -/
def fetchArticle (input : List String) (articleNum : String) :
    Except FetchErr String × List String :=
  match input with
  | [] => (Except.error FetchErr.readFailed, [])
  | response :: rest =>
    if hasPrefixGo response ("220 ") then
      match readArticleBody rest response with
      | some (body, rest') => (Except.ok (body ++ (".\r\n")), rest')
      | none => (Except.error FetchErr.readFailed, [])
    else (Except.error (FetchErr.unavailable response), rest)

/-- The XOVER body loop (`nw.go` lines 183–205): read listing lines up to
the exact terminator `".\r\n"`, split each on tabs, silently skip lines
with fewer than 8 fields, apply the age filter when `days > 0`, and
collect the surviving article numbers (field 0).  `none` models a read
error, which is fatal for the run. -/
def readXoverLines (days cutoff : Int) (tp : String → Option Int) :
    List String → List String → Option (List String × List String)
  | [], _ => none
  | l :: ls, acc =>
    if l = (".\r\n") then some (acc, ls)
    else
      if (splitOnChar '\t' l).length < 8 then readXoverLines days cutoff tp ls acc
      else
        if 0 < days then
          match parseDate tp ((splitOnChar '\t' l).getD 3 ("")) with
          | none => readXoverLines days cutoff tp ls acc
          | some d =>
            if d < cutoff then readXoverLines days cutoff tp ls acc
            else readXoverLines days cutoff tp ls (acc ++ [(splitOnChar '\t' l).getD 0 ("")])
        else readXoverLines days cutoff tp ls (acc ++ [(splitOnChar '\t' l).getD 0 ("")])

/-- The command line written by `fetchArticle` (`nw.go` line 237). -/
def articleCmd (n : String) : String := ("ARTICLE ") ++ n ++ ("\r\n")

/-- The command line written for one batch listing (`nw.go` line 174). -/
def xoverCmd (s e : Int) : String :=
  ("XOVER ") ++ intStr s ++ ("-") ++ intStr e ++ ("\r\n")

/-- The command line selecting the group (`nw.go` line 128). -/
def groupCmd (g : String) : String := ("GROUP ") ++ g ++ ("\r\n")

/-- Diagnostic written when one article fetch fails (`nw.go` line 210). -/
def fetchWarnMsg (n : String) : String :=
  ("Warning: failed to fetch article ") ++ n

/-- Result of the per-batch fetch loop: fetched article texts in order,
the unread remainder of the stream, the commands written, and the
diagnostics emitted. -/
structure FetchOut where
  arts : List String
  rest : List String
  cmds : List String
  warns : List String

/-- The fetch loop over one batch's surviving article numbers
(`nw.go` lines 207–214): a failed fetch emits a diagnostic and the loop
continues with the next number. -/
def fetchLoop : List String → List String → FetchOut
  | input, [] => ⟨[], input, [], []⟩
  | input, n :: ns =>
    match fetchArticle input n with
    | (Except.ok art, rest) =>
      let r := fetchLoop rest ns
      ⟨art :: r.arts, r.rest, articleCmd n :: r.cmds, r.warns⟩
    | (Except.error _, rest) =>
      let r := fetchLoop rest ns
      ⟨r.arts, r.rest, articleCmd n :: r.cmds, fetchWarnMsg n :: r.warns⟩

/-- Fatal outcomes of `getRecentArticles`. -/
inductive EngineErr where
  | groupReadFailed : EngineErr
  | groupSelectionFailed : String → EngineErr
  | invalidGroupResponse : String → EngineErr
  | invalidFirstArticle : EngineErr
  | invalidLastArticle : EngineErr
  | xoverHeaderReadFailed : EngineErr
  | xoverFailed : String → EngineErr
  | xoverBodyReadFailed : EngineErr
  | noArticlesFound : EngineErr
deriving DecidableEq

/-- Observable outcome of one engine run: every command written to the
connection, every `last_article` value persisted to the bookmark store
(in order), every diagnostic, and the final result. -/
structure RunResult where
  commands : List String
  saves : List Int
  warns : List String
  result : Except EngineErr (List String)

/-- The bookmark update after one batch (`nw.go` lines 216–224): the
group state is persisted exactly when resume mode is on and the batch end
exceeds the (resume-adjusted) start of the whole range. -/
def persistAfterBatch (useLatest : Bool) (first batchEnd : Int)
    (saves : List Int) : List Int :=
  if useLatest ∧ first < batchEnd then saves ++ [batchEnd] else saves

/-- Diagnostic for a failed state save (`nw.go` line 222): emitted when a
save was attempted and the store reported failure; the failure has no
other effect. -/
def saveWarn (useLatest saveOk : Bool) (first batchEnd : Int) : List String :=
  if (useLatest ∧ first < batchEnd) ∧ saveOk = false
  then [("Warning: failed to save state")] else []

/-- The batching loop of `getRecentArticles` (`nw.go` lines 166–227):
while `batchStart ≤ last`, compute `batchEnd = min(batchStart + B − 1,
last)`, issue the XOVER command, read and filter the listing, fetch every
surviving article (failures are non-fatal), persist the bookmark when due
and continue with `batchStart = batchEnd + 1`.  After the loop an empty
article list is turned into the `noArticlesFound` failure
(`nw.go` lines 229–231). -/
def batchLoop (days cutoff : Int) (useLatest saveOk : Bool)
    (tp : String → Option Int) (maxBatchSize first last : Int)
    (input : List String) (batchStart : Int) (articles cmds : List String)
    (saves : List Int) (warns : List String) : RunResult :=
  if batchStart ≤ last then
    let batchEnd := min (batchStart + maxBatchSize - 1) last
    let cmds₁ := cmds ++ [xoverCmd batchStart batchEnd]
    match input with
    | [] => ⟨cmds₁, saves, warns, Except.error EngineErr.xoverHeaderReadFailed⟩
    | hdr :: rest =>
      if hasPrefixGo hdr ("224 ") then
        match hx : readXoverLines days cutoff tp rest [] with
        | none => ⟨cmds₁, saves, warns, Except.error EngineErr.xoverBodyReadFailed⟩
        | some (nums, rest₂) =>
          let f := fetchLoop rest₂ nums
          batchLoop days cutoff useLatest saveOk tp maxBatchSize first last
            f.rest (batchEnd + 1) (articles ++ f.arts) (cmds₁ ++ f.cmds)
            (persistAfterBatch useLatest first batchEnd saves)
            (warns ++ f.warns ++ saveWarn useLatest saveOk first batchEnd)
      else ⟨cmds₁, saves, warns, Except.error (EngineErr.xoverFailed hdr)⟩
  else
    if articles.isEmpty then
      ⟨cmds, saves, warns, Except.error EngineErr.noArticlesFound⟩
    else ⟨cmds, saves, warns, Except.ok articles⟩
termination_by input.length
decreasing_by
  have hra : ∀ (bod : List String) (acc b : String) (r : List String),
      readArticleBody bod acc = some (b, r) → r.length ≤ bod.length := by
    intro bod
    induction bod with
    | nil => intro acc b r h; simp [readArticleBody] at h
    | cons l ls ih =>
      intro acc b r h
      simp only [readArticleBody] at h
      split at h
      · cases h; simp
      · have := ih _ _ _ h
        simp only [List.length_cons]; omega
  have hfa : ∀ (inp : List String) (nm : String),
      (fetchArticle inp nm).2.length ≤ inp.length := by
    intro inp nm
    cases inp with
    | nil => simp [fetchArticle]
    | cons resp rst =>
      simp only [fetchArticle]
      split
      · split
        · next body rest' hsome =>
            have := hra _ _ _ _ hsome
            simp only [List.length_cons]; omega
        · simp
      · simp
  have hfl : ∀ (ns inp : List String), (fetchLoop inp ns).rest.length ≤ inp.length := by
    intro ns
    induction ns with
    | nil => intro inp; simp [fetchLoop]
    | cons n ns ih =>
      intro inp
      cases hfe : fetchArticle inp n with
      | mk res rst =>
        have h2 := hfa inp n
        rw [hfe] at h2
        cases res with
        | ok art =>
          simp only [fetchLoop, hfe]
          exact le_trans (ih rst) (by simpa using h2)
        | error e =>
          simp only [fetchLoop, hfe]
          exact le_trans (ih rst) (by simpa using h2)
  have hxl : ∀ (inp acc nums r : List String),
      readXoverLines days cutoff tp inp acc = some (nums, r) → r.length < inp.length := by
    intro inp
    induction inp with
    | nil => intro acc nums r h; simp [readXoverLines] at h
    | cons l ls ih =>
      intro acc nums r h
      simp only [readXoverLines] at h
      split at h
      · cases h; simp
      · split at h
        · have := ih _ _ _ h; simp only [List.length_cons]; omega
        · split at h
          · split at h
            · have := ih _ _ _ h; simp only [List.length_cons]; omega
            · split at h
              · have := ih _ _ _ h; simp only [List.length_cons]; omega
              · have := ih _ _ _ h; simp only [List.length_cons]; omega
          · have := ih _ _ _ h; simp only [List.length_cons]; omega
  have h1 := hfl nums rest₂
  have h2 := hxl _ _ _ _ hx
  simp only [List.length_cons]
  omega

/-- `getRecentArticles` (`nw.go` lines 125–234): group selection, resume
adjustment, then the batching loop.  `savedLast` is the group's entry in
the loaded state map (`none` when absent), `cutoff` stands for
`time.Now().AddDate(0, 0, -days)` and `saveOk` for the outcome of
`saveState`. -/
def getRecentArticles (input : List String) (group : String) (days : Int)
    (useLatest : Bool) (maxBatchSize : Int) (savedLast : Option Int)
    (cutoff : Int) (tp : String → Option Int) (saveOk : Bool) : RunResult :=
  match input with
  | [] => ⟨[groupCmd group], [], [], Except.error EngineErr.groupReadFailed⟩
  | response :: rest =>
    if hasPrefixGo response ("211 ") then
      if (goFields response).length < 4 then
        ⟨[groupCmd group], [], [],
          Except.error (EngineErr.invalidGroupResponse response)⟩
      else
        match atoi ((goFields response).getD 2 ("")),
            atoi ((goFields response).getD 3 ("")) with
        | none, _ =>
          ⟨[groupCmd group], [], [], Except.error EngineErr.invalidFirstArticle⟩
        | some _, none =>
          ⟨[groupCmd group], [], [], Except.error EngineErr.invalidLastArticle⟩
        | some first, some last =>
          match useLatest, savedLast with
          | true, some savedL =>
            if last ≤ savedL then ⟨[groupCmd group], [], [], Except.ok []⟩
            else
              batchLoop days cutoff true saveOk tp maxBatchSize
                (if first ≤ savedL ∧ savedL < last then savedL + 1 else first)
                last rest
                (if first ≤ savedL ∧ savedL < last then savedL + 1 else first)
                [] [groupCmd group] [] []
          | ul, _ =>
            batchLoop days cutoff ul saveOk tp maxBatchSize first last rest
              first [] [groupCmd group] [] []
    else
      ⟨[groupCmd group], [], [],
        Except.error (EngineErr.groupSelectionFailed response)⟩

/-- The pure batch-range arithmetic of the loop (`nw.go` lines 168–171
and 226) with the I/O stripped: the successive `[batchStart, batchEnd]`
pairs.  Fuel-driven for totality; `batches` supplies enough fuel. -/
def batchesAux (fuel : Nat) (batchStart last maxBatchSize : Int) :
    List (Int × Int) :=
  match fuel with
  | 0 => []
  | f + 1 =>
    if batchStart ≤ last then
      (batchStart, min (batchStart + maxBatchSize - 1) last) ::
        batchesAux f (min (batchStart + maxBatchSize - 1) last + 1) last maxBatchSize
    else []

/-- The batch sub-ranges the loop produces for the range
`[first, last]` with the given batch size. -/
def batches (first last maxBatchSize : Int) : List (Int × Int) :=
  batchesAux (last + 1 - first).toNat first last maxBatchSize

/-- An input stream of `k` successful empty batch listings: for each
batch a `224` header immediately followed by the terminator line. -/
def emptyListings : Nat → List String
  | 0 => []
  | k + 1 => ("224 ok\r\n") :: (".\r\n") :: emptyListings k

/-! ### Shared helper lemmas -/

theorem readArticleBody_rest_le :
    ∀ (bod : List String) (acc b : String) (r : List String),
      readArticleBody bod acc = some (b, r) → r.length ≤ bod.length := by
  intro bod
  induction bod with
  | nil => intro acc b r h; simp [readArticleBody] at h
  | cons l ls ih =>
    intro acc b r h
    simp only [readArticleBody] at h
    split at h
    · cases h; simp
    · have := ih _ _ _ h
      simp only [List.length_cons]; omega

theorem fetchArticle_rest_le :
    ∀ (inp : List String) (nm : String),
      (fetchArticle inp nm).2.length ≤ inp.length := by
  intro inp nm
  cases inp with
  | nil => simp [fetchArticle]
  | cons resp rst =>
    simp only [fetchArticle]
    split
    · split
      · next body rest' hsome =>
          have := readArticleBody_rest_le _ _ _ _ hsome
          simp only [List.length_cons]; omega
      · simp
    · simp

theorem fetchLoop_rest_le :
    ∀ (ns inp : List String), (fetchLoop inp ns).rest.length ≤ inp.length := by
  intro ns
  induction ns with
  | nil => intro inp; simp [fetchLoop]
  | cons n ns ih =>
    intro inp
    cases hfe : fetchArticle inp n with
    | mk res rst =>
      have h2 := fetchArticle_rest_le inp n
      rw [hfe] at h2
      cases res with
      | ok art =>
        simp only [fetchLoop, hfe]
        exact le_trans (ih rst) (by simpa using h2)
      | error e =>
        simp only [fetchLoop, hfe]
        exact le_trans (ih rst) (by simpa using h2)

theorem readXoverLines_rest_lt (days cutoff : Int) (tp : String → Option Int) :
    ∀ (inp acc nums r : List String),
      readXoverLines days cutoff tp inp acc = some (nums, r) →
      r.length < inp.length := by
  intro inp
  induction inp with
  | nil => intro acc nums r h; simp [readXoverLines] at h
  | cons l ls ih =>
    intro acc nums r h
    simp only [readXoverLines] at h
    split at h
    · cases h; simp
    · split at h
      · have := ih _ _ _ h; simp only [List.length_cons]; omega
      · split at h
        · split at h
          · have := ih _ _ _ h; simp only [List.length_cons]; omega
          · split at h
            · have := ih _ _ _ h; simp only [List.length_cons]; omega
            · have := ih _ _ _ h; simp only [List.length_cons]; omega
        · have := ih _ _ _ h; simp only [List.length_cons]; omega

theorem readArticleBody_reconstruct :
    ∀ (body : List String), (∀ l ∈ body, l ≠ (".\r\n")) →
      ∀ (rest : List String) (acc : String),
        readArticleBody (body ++ (".\r\n") :: rest) acc
          = some (acc ++ concatList (body.map unstuff), rest) := by
  intro body
  induction body with
  | nil =>
    intro _ rest acc
    simp [readArticleBody, concatList, String.append_empty]
  | cons l ls ih =>
    intro hb rest acc
    have hl : l ≠ (".\r\n") := hb l (by simp)
    simp only [List.cons_append, readArticleBody, if_neg hl, List.append_eq]
    rw [ih (fun x hx => hb x (by simp [hx])) rest (acc ++ unstuff l)]
    simp [concatList, String.append_assoc]

theorem splitOnCharAux_head (c : Char) :
    ∀ (xs cur : List Char),
      (splitOnCharAux c xs cur).getD 0 ("")
        = String.mk (cur.reverse ++ xs.takeWhile (fun x : Char => x ≠ c)) := by
  intro xs
  induction xs with
  | nil => intro cur; simp [splitOnCharAux]
  | cons x xs ih =>
    intro cur
    by_cases hx : x = c
    · subst hx
      simp [splitOnCharAux, List.takeWhile_cons]
    · simp only [splitOnCharAux, if_neg hx, List.takeWhile_cons]
      rw [ih (x :: cur)]
      simp [hx]

/-! ### Lemmas about the pure batch arithmetic -/

theorem batchesAux_congr (last B : Int) (hB : 1 ≤ B) :
    ∀ (f₁ f₂ : Nat) (s : Int),
      (last + 1 - s).toNat ≤ f₁ → (last + 1 - s).toNat ≤ f₂ →
      batchesAux f₁ s last B = batchesAux f₂ s last B := by
  intro f₁
  induction f₁ with
  | zero =>
    intro f₂ s h1 h2
    have hs : ¬ s ≤ last := by omega
    cases f₂ with
    | zero => rfl
    | succ k => simp [batchesAux, hs]
  | succ g ih =>
    intro f₂ s h1 h2
    by_cases hs : s ≤ last
    · cases f₂ with
      | zero => exfalso; omega
      | succ k =>
        simp only [batchesAux, if_pos hs]
        congr 1
        apply ih
        · omega
        · omega
    · cases f₂ with
      | zero => simp [batchesAux, hs]
      | succ k => simp [batchesAux, hs]

theorem batches_cons (last B : Int) (hB : 1 ≤ B) (s : Int) (hs : s ≤ last) :
    batches s last B
      = (s, min (s + B - 1) last) :: batches (min (s + B - 1) last + 1) last B := by
  unfold batches
  have h1 : (last + 1 - s).toNat = ((last + 1 - s).toNat - 1) + 1 := by omega
  rw [h1]
  simp only [batchesAux, if_pos hs]
  congr 1
  apply batchesAux_congr last B hB
  · omega
  · omega

theorem batches_nil (last B s : Int) (hs : last < s) : batches s last B = [] := by
  unfold batches
  have h0 : (last + 1 - s).toNat = 0 := by omega
  rw [h0]
  rfl

theorem batches_master (last B : Int) (hB : 1 ≤ B) :
    ∀ (k : Nat) (s : Int), (last + 1 - s).toNat ≤ k →
      (List.Chain' (fun p q : Int × Int => q.1 = p.2 + 1) (batches s last B)) ∧
      (∀ p ∈ batches s last B,
        s ≤ p.1 ∧ p.1 ≤ p.2 ∧ p.2 - p.1 + 1 ≤ B ∧ p.2 ≤ last ∧
          p.2 = min (p.1 + B - 1) last) ∧
      (∀ n : Int, (∃ p ∈ batches s last B, p.1 ≤ n ∧ n ≤ p.2) ↔ s ≤ n ∧ n ≤ last) ∧
      (List.Pairwise (fun p q : Int × Int => p.2 < q.1) (batches s last B)) ∧
      ((batches s last B).head?.map Prod.fst
        = if s ≤ last then some s else none) := by
  intro k
  induction k with
  | zero =>
    intro s hk
    have hs : last < s := by omega
    rw [batches_nil last B s hs]
    refine ⟨by simp, by simp, ?_, by simp, by simp [show ¬ s ≤ last by omega]⟩
    intro n
    simp
    omega
  | succ k ih =>
    intro s hk
    by_cases hs : s ≤ last
    · rw [batches_cons last B hB s hs]
      set e := min (s + B - 1) last with he
      have he1 : s ≤ e := by omega
      have he2 : e ≤ last := by omega
      have he3 : e ≤ s + B - 1 := by omega
      obtain ⟨ihc, ihm, ihcov, ihp, ihh⟩ := ih (e + 1) (by omega)
      refine ⟨?_, ?_, ?_, ?_, ?_⟩
      · rw [List.chain'_cons']
        refine ⟨?_, ihc⟩
        intro y hy
        cases hh : (batches (e + 1) last B).head? with
        | none => rw [hh] at hy; simp at hy
        | some q =>
          rw [hh] at hy
          simp at hy
          subst hy
          rw [hh] at ihh
          by_cases h2 : e + 1 ≤ last
          · rw [if_pos h2] at ihh
            simp at ihh
            simp [ihh]
          · rw [if_neg h2] at ihh
            simp at ihh
      · intro p hp
        rw [List.mem_cons] at hp
        rcases hp with rfl | hp
        · exact ⟨le_refl s, he1, by omega, he2, he⟩
        · obtain ⟨h1, h2, h3, h4, h5⟩ := ihm p hp
          exact ⟨by omega, h2, h3, h4, h5⟩
      · intro n
        constructor
        · rintro ⟨⟨p1, p2⟩, hp, hn1, hn2⟩
          rw [List.mem_cons] at hp
          rcases hp with heq | hp
          · rw [Prod.mk.injEq] at heq
            obtain ⟨rfl, rfl⟩ := heq
            simp only at hn1 hn2
            omega
          · have := (ihcov n).mp ⟨(p1, p2), hp, hn1, hn2⟩
            omega
        · rintro ⟨hn1, hn2⟩
          by_cases hne : n ≤ e
          · exact ⟨(s, e), List.mem_cons_self _ _, hn1, hne⟩
          · obtain ⟨p, hp, h1, h2⟩ := (ihcov n).mpr ⟨by omega, hn2⟩
            exact ⟨p, List.mem_cons_of_mem _ hp, h1, h2⟩
      · rw [List.pairwise_cons]
        refine ⟨?_, ihp⟩
        intro q hq
        have hq1 := (ihm q hq).1
        show e < q.1
        omega
      · simp [if_pos hs]
    · rw [batches_nil last B s (by omega)]
      refine ⟨by simp, by simp, ?_, by simp, by simp [hs]⟩
      intro n
      simp
      omega

/-! ### Lemmas about the batching loop -/

theorem batchLoop_stop (days cutoff : Int) (ul so : Bool)
    (tp : String → Option Int) (B first last : Int) (input : List String)
    (bs : Int) (arts cmds : List String) (saves : List Int)
    (warns : List String) (hbs : last < bs) :
    batchLoop days cutoff ul so tp B first last input bs arts cmds saves warns
      = ⟨cmds, saves, warns,
          if arts.isEmpty then Except.error EngineErr.noArticlesFound
          else Except.ok arts⟩ := by
  rw [batchLoop, if_neg (by omega)]
  by_cases h : arts.isEmpty <;> simp [h]

theorem batchLoop_hdrFail (days cutoff : Int) (ul so : Bool)
    (tp : String → Option Int) (B first last : Int) (bs : Int)
    (arts cmds : List String) (saves : List Int) (warns : List String)
    (hbs : bs ≤ last) :
    batchLoop days cutoff ul so tp B first last [] bs arts cmds saves warns
      = ⟨cmds ++ [xoverCmd bs (min (bs + B - 1) last)], saves, warns,
          Except.error EngineErr.xoverHeaderReadFailed⟩ := by
  rw [batchLoop, if_pos hbs]

theorem batchLoop_badHdr (days cutoff : Int) (ul so : Bool)
    (tp : String → Option Int) (B first last : Int) (bs : Int)
    (arts cmds : List String) (saves : List Int) (warns : List String)
    (hdr : String) (rest : List String) (hbs : bs ≤ last)
    (hh : hasPrefixGo hdr ("224 ") = false) :
    batchLoop days cutoff ul so tp B first last (hdr :: rest) bs arts cmds saves warns
      = ⟨cmds ++ [xoverCmd bs (min (bs + B - 1) last)], saves, warns,
          Except.error (EngineErr.xoverFailed hdr)⟩ := by
  rw [batchLoop, if_pos hbs]
  simp [hh]

theorem batchLoop_bodyFail (days cutoff : Int) (ul so : Bool)
    (tp : String → Option Int) (B first last : Int) (bs : Int)
    (arts cmds : List String) (saves : List Int) (warns : List String)
    (hdr : String) (rest : List String) (hbs : bs ≤ last)
    (hh : hasPrefixGo hdr ("224 ") = true)
    (hx : readXoverLines days cutoff tp rest [] = none) :
    batchLoop days cutoff ul so tp B first last (hdr :: rest) bs arts cmds saves warns
      = ⟨cmds ++ [xoverCmd bs (min (bs + B - 1) last)], saves, warns,
          Except.error EngineErr.xoverBodyReadFailed⟩ := by
  rw [batchLoop, if_pos hbs]
  simp only [hh, if_true]
  split
  · rfl
  · next nums' rest₂' heq => rw [hx] at heq; cases heq

theorem batchLoop_step (days cutoff : Int) (ul so : Bool)
    (tp : String → Option Int) (B first last : Int) (bs : Int)
    (arts cmds : List String) (saves : List Int) (warns : List String)
    (hdr : String) (rest nums rest₂ : List String) (hbs : bs ≤ last)
    (hh : hasPrefixGo hdr ("224 ") = true)
    (hx : readXoverLines days cutoff tp rest [] = some (nums, rest₂)) :
    batchLoop days cutoff ul so tp B first last (hdr :: rest) bs arts cmds saves warns
      = batchLoop days cutoff ul so tp B first last (fetchLoop rest₂ nums).rest
          (min (bs + B - 1) last + 1)
          (arts ++ (fetchLoop rest₂ nums).arts)
          ((cmds ++ [xoverCmd bs (min (bs + B - 1) last)]) ++ (fetchLoop rest₂ nums).cmds)
          (persistAfterBatch ul first (min (bs + B - 1) last) saves)
          (warns ++ (fetchLoop rest₂ nums).warns
            ++ saveWarn ul so first (min (bs + B - 1) last)) := by
  rw [batchLoop, if_pos hbs]
  simp only [hh, if_true]
  split
  · next heq => rw [hx] at heq; cases heq
  · next nums' rest₂' heq =>
      rw [hx] at heq
      cases heq
      rfl

theorem batchLoop_cmds_extend (days cutoff : Int) (ul so : Bool)
    (tp : String → Option Int) (B first last : Int) :
    ∀ (k : Nat) (input : List String), input.length ≤ k →
      ∀ (bs : Int) (arts cmds : List String) (saves : List Int) (warns : List String),
        ∃ t, (batchLoop days cutoff ul so tp B first last input bs arts cmds
                saves warns).commands = cmds ++ t := by
  intro k
  induction k with
  | zero =>
    intro input hlen bs arts cmds saves warns
    have hnil : input = [] := List.eq_nil_of_length_eq_zero (by omega)
    subst hnil
    by_cases hbs : bs ≤ last
    · rw [batchLoop_hdrFail days cutoff ul so tp B first last bs arts cmds saves warns hbs]
      exact ⟨[xoverCmd bs (min (bs + B - 1) last)], rfl⟩
    · rw [batchLoop_stop days cutoff ul so tp B first last [] bs arts cmds saves warns (by omega)]
      exact ⟨[], by simp⟩
  | succ k ih =>
    intro input hlen bs arts cmds saves warns
    by_cases hbs : bs ≤ last
    · cases input with
      | nil =>
        rw [batchLoop_hdrFail days cutoff ul so tp B first last bs arts cmds saves warns hbs]
        exact ⟨[xoverCmd bs (min (bs + B - 1) last)], rfl⟩
      | cons hdr rest =>
        by_cases hh : hasPrefixGo hdr ("224 ")
        · cases hx : readXoverLines days cutoff tp rest [] with
          | none =>
            rw [batchLoop_bodyFail days cutoff ul so tp B first last bs arts cmds
              saves warns hdr rest hbs hh hx]
            exact ⟨[xoverCmd bs (min (bs + B - 1) last)], rfl⟩
          | some pr =>
            obtain ⟨nums, rest₂⟩ := pr
            rw [batchLoop_step days cutoff ul so tp B first last bs arts cmds
              saves warns hdr rest nums rest₂ hbs hh hx]
            have hlen2 : (fetchLoop rest₂ nums).rest.length ≤ k := by
              have h1 := fetchLoop_rest_le nums rest₂
              have h2 := readXoverLines_rest_lt days cutoff tp rest [] nums rest₂ hx
              simp only [List.length_cons] at hlen
              omega
            obtain ⟨t, ht⟩ := ih (fetchLoop rest₂ nums).rest hlen2 _ _ _ _ _
            refine ⟨[xoverCmd bs (min (bs + B - 1) last)] ++ (fetchLoop rest₂ nums).cmds ++ t, ?_⟩
            rw [ht]
            simp [List.append_assoc]
        · rw [batchLoop_badHdr days cutoff ul so tp B first last bs arts cmds
            saves warns hdr rest hbs (by simpa using hh)]
          exact ⟨[xoverCmd bs (min (bs + B - 1) last)], rfl⟩
    · rw [batchLoop_stop days cutoff ul so tp B first last input bs arts cmds
        saves warns (by omega)]
      exact ⟨[], by simp⟩

theorem batchLoop_first_cmd (days cutoff : Int) (ul so : Bool)
    (tp : String → Option Int) (B first last : Int) (input : List String)
    (bs : Int) (arts cmds : List String) (saves : List Int)
    (warns : List String) (hbs : bs ≤ last) :
    ∃ t, (batchLoop days cutoff ul so tp B first last input bs arts cmds
            saves warns).commands
      = cmds ++ [xoverCmd bs (min (bs + B - 1) last)] ++ t := by
  cases input with
  | nil =>
    rw [batchLoop_hdrFail days cutoff ul so tp B first last bs arts cmds saves warns hbs]
    exact ⟨[], by simp⟩
  | cons hdr rest =>
    by_cases hh : hasPrefixGo hdr ("224 ")
    · cases hx : readXoverLines days cutoff tp rest [] with
      | none =>
        rw [batchLoop_bodyFail days cutoff ul so tp B first last bs arts cmds
          saves warns hdr rest hbs hh hx]
        exact ⟨[], by simp⟩
      | some pr =>
        obtain ⟨nums, rest₂⟩ := pr
        rw [batchLoop_step days cutoff ul so tp B first last bs arts cmds
          saves warns hdr rest nums rest₂ hbs hh hx]
        obtain ⟨t, ht⟩ := batchLoop_cmds_extend days cutoff ul so tp B first last
          (fetchLoop rest₂ nums).rest.length (fetchLoop rest₂ nums).rest le_rfl
          (min (bs + B - 1) last + 1) (arts ++ (fetchLoop rest₂ nums).arts)
          ((cmds ++ [xoverCmd bs (min (bs + B - 1) last)]) ++ (fetchLoop rest₂ nums).cmds)
          (persistAfterBatch ul first (min (bs + B - 1) last) saves)
          (warns ++ (fetchLoop rest₂ nums).warns
            ++ saveWarn ul so first (min (bs + B - 1) last))
        refine ⟨(fetchLoop rest₂ nums).cmds ++ t, ?_⟩
        rw [ht]
        simp [List.append_assoc]
    · rw [batchLoop_badHdr days cutoff ul so tp B first last bs arts cmds
        saves warns hdr rest hbs (by simpa using hh)]
      exact ⟨[], by simp⟩

theorem batchLoop_ok_spec (days cutoff : Int) (ul so : Bool)
    (tp : String → Option Int) (B first last : Int) :
    ∀ (k : Nat) (input : List String), input.length ≤ k →
      ∀ (bs : Int) (arts cmds : List String) (saves : List Int)
        (warns : List String) (res : List String),
        (batchLoop days cutoff ul so tp B first last input bs arts cmds
            saves warns).result = Except.ok res →
        (∃ t, res = arts ++ t) ∧ res ≠ [] := by
  intro k
  induction k with
  | zero =>
    intro input hlen bs arts cmds saves warns res h
    have hnil : input = [] := List.eq_nil_of_length_eq_zero (by omega)
    subst hnil
    by_cases hbs : bs ≤ last
    · rw [batchLoop_hdrFail days cutoff ul so tp B first last bs arts cmds saves warns hbs] at h
      simp at h
    · rw [batchLoop_stop days cutoff ul so tp B first last [] bs arts cmds saves warns (by omega)] at h
      by_cases he : arts.isEmpty
      · simp [he] at h
      · simp only [he, if_false] at h
        cases h
        exact ⟨⟨[], by simp⟩, by simpa [List.isEmpty_iff] using he⟩
  | succ k ih =>
    intro input hlen bs arts cmds saves warns res h
    by_cases hbs : bs ≤ last
    · cases input with
      | nil =>
        rw [batchLoop_hdrFail days cutoff ul so tp B first last bs arts cmds saves warns hbs] at h
        simp at h
      | cons hdr rest =>
        by_cases hh : hasPrefixGo hdr ("224 ")
        · cases hx : readXoverLines days cutoff tp rest [] with
          | none =>
            rw [batchLoop_bodyFail days cutoff ul so tp B first last bs arts cmds
              saves warns hdr rest hbs hh hx] at h
            simp at h
          | some pr =>
            obtain ⟨nums, rest₂⟩ := pr
            rw [batchLoop_step days cutoff ul so tp B first last bs arts cmds
              saves warns hdr rest nums rest₂ hbs hh hx] at h
            have hlen2 : (fetchLoop rest₂ nums).rest.length ≤ k := by
              have h1 := fetchLoop_rest_le nums rest₂
              have h2 := readXoverLines_rest_lt days cutoff tp rest [] nums rest₂ hx
              simp only [List.length_cons] at hlen
              omega
            obtain ⟨⟨t, ht⟩, hne⟩ := ih (fetchLoop rest₂ nums).rest hlen2 _ _ _ _ _ _ h
            refine ⟨⟨(fetchLoop rest₂ nums).arts ++ t, ?_⟩, hne⟩
            rw [ht]
            simp [List.append_assoc]
        · rw [batchLoop_badHdr days cutoff ul so tp B first last bs arts cmds
            saves warns hdr rest hbs (by simpa using hh)] at h
          simp at h
    · rw [batchLoop_stop days cutoff ul so tp B first last input bs arts cmds
        saves warns (by omega)] at h
      by_cases he : arts.isEmpty
      · simp [he] at h
      · simp only [he, if_false] at h
        cases h
        exact ⟨⟨[], by simp⟩, by simpa [List.isEmpty_iff] using he⟩

theorem batchLoop_saves_spec (days cutoff : Int) (ul so : Bool)
    (tp : String → Option Int) (B first last : Int) (hB : 1 ≤ B) :
    ∀ (k : Nat) (input : List String), input.length ≤ k →
      ∀ (bs : Int) (arts cmds : List String) (saves : List Int)
        (warns : List String),
        List.Chain' (fun a b : Int => a < b) saves →
        (∀ v ∈ saves, v < bs) →
        List.Chain' (fun a b : Int => a < b)
          (batchLoop days cutoff ul so tp B first last input bs arts cmds
            saves warns).saves ∧
        (∀ v ∈ (batchLoop days cutoff ul so tp B first last input bs arts cmds
            saves warns).saves,
          v ∈ saves ∨ (ul = true ∧ first < v ∧ bs ≤ v)) := by
  intro k
  induction k with
  | zero =>
    intro input hlen bs arts cmds saves warns hchain hlt
    have hnil : input = [] := List.eq_nil_of_length_eq_zero (by omega)
    subst hnil
    by_cases hbs : bs ≤ last
    · rw [batchLoop_hdrFail days cutoff ul so tp B first last bs arts cmds saves warns hbs]
      exact ⟨hchain, fun v hv => Or.inl hv⟩
    · rw [batchLoop_stop days cutoff ul so tp B first last [] bs arts cmds saves warns (by omega)]
      exact ⟨hchain, fun v hv => Or.inl hv⟩
  | succ k ih =>
    intro input hlen bs arts cmds saves warns hchain hlt
    by_cases hbs : bs ≤ last
    · cases input with
      | nil =>
        rw [batchLoop_hdrFail days cutoff ul so tp B first last bs arts cmds saves warns hbs]
        exact ⟨hchain, fun v hv => Or.inl hv⟩
      | cons hdr rest =>
        by_cases hh : hasPrefixGo hdr ("224 ")
        · cases hx : readXoverLines days cutoff tp rest [] with
          | none =>
            rw [batchLoop_bodyFail days cutoff ul so tp B first last bs arts cmds
              saves warns hdr rest hbs hh hx]
            exact ⟨hchain, fun v hv => Or.inl hv⟩
          | some pr =>
            obtain ⟨nums, rest₂⟩ := pr
            rw [batchLoop_step days cutoff ul so tp B first last bs arts cmds
              saves warns hdr rest nums rest₂ hbs hh hx]
            have hbe : bs ≤ min (bs + B - 1) last := by omega
            have hlen2 : (fetchLoop rest₂ nums).rest.length ≤ k := by
              have h1 := fetchLoop_rest_le nums rest₂
              have h2 := readXoverLines_rest_lt days cutoff tp rest [] nums rest₂ hx
              simp only [List.length_cons] at hlen
              omega
            have hchain2 : List.Chain' (fun a b : Int => a < b)
                (persistAfterBatch ul first (min (bs + B - 1) last) saves) := by
              by_cases hc : ul = true ∧ first < min (bs + B - 1) last
              · simp only [persistAfterBatch, if_pos hc]
                rw [List.chain'_append]
                refine ⟨hchain, by simp, ?_⟩
                intro x hx2 y hy2
                simp at hy2
                subst hy2
                have := hlt x (List.mem_of_mem_getLast? hx2)
                omega
              · simp only [persistAfterBatch, if_neg hc]
                exact hchain
            have hlt2 : ∀ v ∈ persistAfterBatch ul first (min (bs + B - 1) last) saves,
                v < min (bs + B - 1) last + 1 := by
              intro v hv
              by_cases hc : ul = true ∧ first < min (bs + B - 1) last
              · simp only [persistAfterBatch, if_pos hc, List.mem_append] at hv
                rcases hv with hv | hv
                · have := hlt v hv; omega
                · simp at hv; omega
              · simp only [persistAfterBatch, if_neg hc] at hv
                have := hlt v hv; omega
            obtain ⟨c2, m2⟩ := ih (fetchLoop rest₂ nums).rest hlen2
              (min (bs + B - 1) last + 1) _ _ _ _ hchain2 hlt2
            refine ⟨c2, ?_⟩
            intro v hv
            rcases m2 v hv with hvp | ⟨hu, hf, hb2⟩
            · by_cases hc : ul = true ∧ first < min (bs + B - 1) last
              · simp only [persistAfterBatch, if_pos hc, List.mem_append] at hvp
                rcases hvp with hvp | hvp
                · exact Or.inl hvp
                · simp at hvp
                  subst hvp
                  exact Or.inr ⟨hc.1, hc.2, hbe⟩
              · simp only [persistAfterBatch, if_neg hc] at hvp
                exact Or.inl hvp
            · exact Or.inr ⟨hu, hf, by omega⟩
        · rw [batchLoop_badHdr days cutoff ul so tp B first last bs arts cmds
            saves warns hdr rest hbs (by simpa using hh)]
          exact ⟨hchain, fun v hv => Or.inl hv⟩
    · rw [batchLoop_stop days cutoff ul so tp B first last input bs arts cmds
        saves warns (by omega)]
      exact ⟨hchain, fun v hv => Or.inl hv⟩

theorem batchLoop_obs_indep (days cutoff : Int) (ul : Bool)
    (tp : String → Option Int) (B first last : Int) :
    ∀ (k : Nat) (input : List String), input.length ≤ k →
      ∀ (bs : Int) (arts cmds : List String) (saves : List Int)
        (w₁ w₂ : List String) (so₁ so₂ : Bool),
        ((batchLoop days cutoff ul so₁ tp B first last input bs arts cmds
            saves w₁).commands
          = (batchLoop days cutoff ul so₂ tp B first last input bs arts cmds
              saves w₂).commands) ∧
        ((batchLoop days cutoff ul so₁ tp B first last input bs arts cmds
            saves w₁).saves
          = (batchLoop days cutoff ul so₂ tp B first last input bs arts cmds
              saves w₂).saves) ∧
        ((batchLoop days cutoff ul so₁ tp B first last input bs arts cmds
            saves w₁).result
          = (batchLoop days cutoff ul so₂ tp B first last input bs arts cmds
              saves w₂).result) := by
  intro k
  induction k with
  | zero =>
    intro input hlen bs arts cmds saves w₁ w₂ so₁ so₂
    have hnil : input = [] := List.eq_nil_of_length_eq_zero (by omega)
    subst hnil
    by_cases hbs : bs ≤ last
    · rw [batchLoop_hdrFail days cutoff ul so₁ tp B first last bs arts cmds saves w₁ hbs,
        batchLoop_hdrFail days cutoff ul so₂ tp B first last bs arts cmds saves w₂ hbs]
      exact ⟨rfl, rfl, rfl⟩
    · rw [batchLoop_stop days cutoff ul so₁ tp B first last [] bs arts cmds saves w₁ (by omega),
        batchLoop_stop days cutoff ul so₂ tp B first last [] bs arts cmds saves w₂ (by omega)]
      exact ⟨rfl, rfl, rfl⟩
  | succ k ih =>
    intro input hlen bs arts cmds saves w₁ w₂ so₁ so₂
    by_cases hbs : bs ≤ last
    · cases input with
      | nil =>
        rw [batchLoop_hdrFail days cutoff ul so₁ tp B first last bs arts cmds saves w₁ hbs,
          batchLoop_hdrFail days cutoff ul so₂ tp B first last bs arts cmds saves w₂ hbs]
        exact ⟨rfl, rfl, rfl⟩
      | cons hdr rest =>
        by_cases hh : hasPrefixGo hdr ("224 ")
        · cases hx : readXoverLines days cutoff tp rest [] with
          | none =>
            rw [batchLoop_bodyFail days cutoff ul so₁ tp B first last bs arts cmds
              saves w₁ hdr rest hbs hh hx,
              batchLoop_bodyFail days cutoff ul so₂ tp B first last bs arts cmds
                saves w₂ hdr rest hbs hh hx]
            exact ⟨rfl, rfl, rfl⟩
          | some pr =>
            obtain ⟨nums, rest₂⟩ := pr
            rw [batchLoop_step days cutoff ul so₁ tp B first last bs arts cmds
              saves w₁ hdr rest nums rest₂ hbs hh hx,
              batchLoop_step days cutoff ul so₂ tp B first last bs arts cmds
                saves w₂ hdr rest nums rest₂ hbs hh hx]
            have hlen2 : (fetchLoop rest₂ nums).rest.length ≤ k := by
              have h1 := fetchLoop_rest_le nums rest₂
              have h2 := readXoverLines_rest_lt days cutoff tp rest [] nums rest₂ hx
              simp only [List.length_cons] at hlen
              omega
            exact ih (fetchLoop rest₂ nums).rest hlen2 _ _ _ _ _ _ so₁ so₂
        · rw [batchLoop_badHdr days cutoff ul so₁ tp B first last bs arts cmds
            saves w₁ hdr rest hbs (by simpa using hh),
            batchLoop_badHdr days cutoff ul so₂ tp B first last bs arts cmds
              saves w₂ hdr rest hbs (by simpa using hh)]
          exact ⟨rfl, rfl, rfl⟩
    · rw [batchLoop_stop days cutoff ul so₁ tp B first last input bs arts cmds
        saves w₁ (by omega),
        batchLoop_stop days cutoff ul so₂ tp B first last input bs arts cmds
          saves w₂ (by omega)]
      exact ⟨rfl, rfl, rfl⟩

theorem batchLoop_emptyListings (days cutoff : Int) (so : Bool)
    (tp : String → Option Int) (B first last : Int) (hB : 1 ≤ B) :
    ∀ (k : Nat) (s : Int), (last + 1 - s).toNat ≤ k →
      ∀ (arts cmds : List String) (saves : List Int) (warns : List String),
        batchLoop days cutoff false so tp B first last
            (emptyListings (batches s last B).length) s arts cmds saves warns
          = ⟨cmds ++ (batches s last B).map (fun p => xoverCmd p.1 p.2),
              saves, warns,
              if arts.isEmpty then Except.error EngineErr.noArticlesFound
              else Except.ok arts⟩ := by
  intro k
  induction k with
  | zero =>
    intro s hk arts cmds saves warns
    have hs : last < s := by omega
    rw [batches_nil last B s hs]
    simp only [List.length_nil, emptyListings, List.map_nil, List.append_nil]
    exact batchLoop_stop days cutoff false so tp B first last [] s arts cmds saves warns hs
  | succ k ih =>
    intro s hk arts cmds saves warns
    by_cases hs : s ≤ last
    · rw [batches_cons last B hB s hs]
      simp only [List.length_cons, emptyListings]
      rw [batchLoop_step days cutoff false so tp B first last s arts cmds saves warns
        ("224 ok\r\n")
        ((".\r\n") :: emptyListings (batches (min (s + B - 1) last + 1) last B).length)
        [] (emptyListings (batches (min (s + B - 1) last + 1) last B).length)
        hs rfl (by simp [readXoverLines])]
      simp only [fetchLoop, List.append_nil]
      rw [show persistAfterBatch false first (min (s + B - 1) last) saves = saves from by
        simp [persistAfterBatch]]
      rw [show saveWarn false so first (min (s + B - 1) last) = [] from by
        simp [saveWarn]]
      rw [show warns ++ ([] : List String) = warns from by simp]
      rw [ih (min (s + B - 1) last + 1) (by omega) arts
        (cmds ++ [xoverCmd s (min (s + B - 1) last)]) saves warns]
      simp [List.append_assoc]
    · rw [batches_nil last B s (by omega)]
      simp only [List.length_nil, emptyListings, List.map_nil, List.append_nil]
      exact batchLoop_stop days cutoff false so tp B first last [] s arts cmds
        saves warns (by omega)

theorem hasPrefixGo_dotdot (l : String) (t : List Char)
    (h : l.data = '.' :: '.' :: t) : hasPrefixGo l ("..") = true := by
  unfold hasPrefixGo
  rw [h]
  show List.isPrefixOf ['.', '.'] ('.' :: '.' :: t) = true
  simp [List.isPrefixOf]

theorem getRecent_saveOk_indep (input : List String) (group : String)
    (days : Int) (ul : Bool) (B : Int) (savedLast : Option Int) (cutoff : Int)
    (tp : String → Option Int) :
    ((getRecentArticles input group days ul B savedLast cutoff tp true).commands
      = (getRecentArticles input group days ul B savedLast cutoff tp false).commands) ∧
    ((getRecentArticles input group days ul B savedLast cutoff tp true).saves
      = (getRecentArticles input group days ul B savedLast cutoff tp false).saves) ∧
    ((getRecentArticles input group days ul B savedLast cutoff tp true).result
      = (getRecentArticles input group days ul B savedLast cutoff tp false).result) := by
  cases input with
  | nil => exact ⟨rfl, rfl, rfl⟩
  | cons resp rest =>
    simp only [getRecentArticles]
    by_cases h1 : hasPrefixGo resp ("211 ")
    · simp only [h1, if_true]
      split
      · exact ⟨rfl, rfl, rfl⟩
      · split
        · exact ⟨rfl, rfl, rfl⟩
        · exact ⟨rfl, rfl, rfl⟩
        · split
          · split
            · exact ⟨rfl, rfl, rfl⟩
            · exact batchLoop_obs_indep days cutoff true tp B _ _ rest.length rest
                le_rfl _ [] [groupCmd group] [] [] [] true false
          · exact batchLoop_obs_indep days cutoff _ tp B _ _ rest.length rest
              le_rfl _ [] [groupCmd group] [] [] [] true false
    · simp only [h1, if_false]
      exact ⟨rfl, rfl, rfl⟩

/-- C1: for every range `(first, last)` with `first ≤ last` and batch size
`B ≥ 1` the batching loop tiles `[first, last]` exactly: the produced
sub-ranges are contiguous and in ascending order, pairwise non-overlapping,
each nonempty with size at most `B` and end `min(start + B − 1, last)`,
their union is exactly `[first, last]`, and the first starts at `first`;
driven against the engine, the loop issues exactly one XOVER command per
such batch; in particular range `(1, 1200)` with `B = 500` yields exactly
`[1,500]`, `[501,1000]`, `[1001,1200]`. -/
theorem batching_tiles_range (first last B : Int) (hB : 1 ≤ B)
    (hfl : first ≤ last) :
    (List.Chain' (fun p q : Int × Int => q.1 = p.2 + 1) (batches first last B)) ∧
    (∀ p ∈ batches first last B,
      first ≤ p.1 ∧ p.1 ≤ p.2 ∧ p.2 - p.1 + 1 ≤ B ∧ p.2 ≤ last ∧
        p.2 = min (p.1 + B - 1) last) ∧
    (∀ n : Int,
      (∃ p ∈ batches first last B, p.1 ≤ n ∧ n ≤ p.2) ↔ first ≤ n ∧ n ≤ last) ∧
    (List.Pairwise (fun p q : Int × Int => p.2 < q.1) (batches first last B)) ∧
    ((batches first last B).head?.map Prod.fst = some first) ∧
    (∀ (days cutoff : Int) (so : Bool) (tp : String → Option Int)
        (arts cmds : List String) (saves : List Int) (warns : List String),
      batchLoop days cutoff false so tp B first last
          (emptyListings (batches first last B).length) first arts cmds saves warns
        = ⟨cmds ++ (batches first last B).map (fun p => xoverCmd p.1 p.2),
            saves, warns,
            if arts.isEmpty then Except.error EngineErr.noArticlesFound
            else Except.ok arts⟩) ∧
    (batches 1 1200 500 = [(1, 500), (501, 1000), (1001, 1200)]) := by
  obtain ⟨hc, hm, hcov, hp, hh⟩ :=
    batches_master last B hB (last + 1 - first).toNat first le_rfl
  refine ⟨hc, hm, hcov, hp, ?_, ?_, rfl⟩
  · rw [hh, if_pos hfl]
  · intro days cutoff so tp arts cmds saves warns
    exact batchLoop_emptyListings days cutoff so tp B first last hB
      (last + 1 - first).toNat first le_rfl arts cmds saves warns

/-- Witness for C1 at the concrete range `(1, 3)` with `B = 2`
(and the claim's own scenario `(1, 1200)`, `B = 500` inside). -/
theorem batching_tiles_range_witness :
    ((1 : Int) ≤ 2 ∧ (1 : Int) ≤ 3) ∧
    ((List.Chain' (fun p q : Int × Int => q.1 = p.2 + 1) (batches 1 3 2)) ∧
    (∀ p ∈ batches 1 3 2,
      (1 : Int) ≤ p.1 ∧ p.1 ≤ p.2 ∧ p.2 - p.1 + 1 ≤ 2 ∧ p.2 ≤ 3 ∧
        p.2 = min (p.1 + 2 - 1) 3) ∧
    (∀ n : Int,
      (∃ p ∈ batches 1 3 2, p.1 ≤ n ∧ n ≤ p.2) ↔ 1 ≤ n ∧ n ≤ 3) ∧
    (List.Pairwise (fun p q : Int × Int => p.2 < q.1) (batches 1 3 2)) ∧
    ((batches 1 3 2).head?.map Prod.fst = some 1) ∧
    (∀ (days cutoff : Int) (so : Bool) (tp : String → Option Int)
        (arts cmds : List String) (saves : List Int) (warns : List String),
      batchLoop days cutoff false so tp 2 1 3
          (emptyListings (batches 1 3 2).length) 1 arts cmds saves warns
        = ⟨cmds ++ (batches 1 3 2).map (fun p => xoverCmd p.1 p.2),
            saves, warns,
            if arts.isEmpty then Except.error EngineErr.noArticlesFound
            else Except.ok arts⟩) ∧
    (batches 1 1200 500 = [(1, 500), (501, 1000), (1001, 1200)])) :=
  ⟨⟨by decide, by decide⟩, batching_tiles_range 1 3 2 (by decide) (by decide)⟩

/-- C3: `fetchArticle` reconstructs an article as the status line
verbatim, then the body lines with dot-unstuffing (a leading `..` loses
its first dot, a single leading dot that is not the terminator passes
unchanged), then a synthetic `".\r\n"`; the terminator line is consumed
and does not appear in the output, which resumes after it; the claim's
three-line scenario reconstructs exactly as stated. -/
theorem fetchArticle_reconstruction (resp : String) (body rest : List String)
    (num : String) (hresp : hasPrefixGo resp ("220 ") = true)
    (hbody : ∀ l ∈ body, l ≠ (".\r\n")) :
    (fetchArticle (resp :: (body ++ (".\r\n") :: rest)) num
      = (Except.ok (resp ++ concatList (body.map unstuff) ++ (".\r\n")), rest)) ∧
    (∀ l : String, hasPrefixGo l ("..") = true →
      unstuff l = String.mk (l.data.drop 1)) ∧
    (∀ l : String, hasPrefixGo l (".") = true → hasPrefixGo l ("..") = false →
      unstuff l = l) ∧
    (fetchArticle (("220 1 r\r\n") :: ("Hello\r\n") :: ("..escaped\r\n") ::
        ("World\r\n") :: (".\r\n") :: []) ("1")
      = (Except.ok ("220 1 r\r\nHello\r\n.escaped\r\nWorld\r\n.\r\n"), [])) := by
  refine ⟨?_, ?_, ?_, rfl⟩
  · simp only [fetchArticle, hresp, if_true]
    rw [readArticleBody_reconstruct body hbody rest resp]
  · intro l hl
    simp [unstuff, hl]
  · intro l h1 h2
    simp [unstuff, h2]

/-- Witness for C3 at the claim's own scenario. -/
theorem fetchArticle_reconstruction_witness :
    (hasPrefixGo ("220 1 r\r\n") ("220 ") = true ∧
      (∀ l ∈ [("Hello\r\n"), ("..escaped\r\n"), ("World\r\n")], l ≠ (".\r\n"))) ∧
    ((fetchArticle (("220 1 r\r\n") ::
        ([("Hello\r\n"), ("..escaped\r\n"), ("World\r\n")] ++ (".\r\n") :: []))
        ("1")
      = (Except.ok (("220 1 r\r\n")
          ++ concatList ([("Hello\r\n"), ("..escaped\r\n"), ("World\r\n")].map unstuff)
          ++ (".\r\n")), [])) ∧
    (∀ l : String, hasPrefixGo l ("..") = true →
      unstuff l = String.mk (l.data.drop 1)) ∧
    (∀ l : String, hasPrefixGo l (".") = true → hasPrefixGo l ("..") = false →
      unstuff l = l) ∧
    (fetchArticle (("220 1 r\r\n") :: ("Hello\r\n") :: ("..escaped\r\n") ::
        ("World\r\n") :: (".\r\n") :: []) ("1")
      = (Except.ok ("220 1 r\r\nHello\r\n.escaped\r\nWorld\r\n.\r\n"), []))) :=
  ⟨⟨by decide, by decide⟩,
    fetchArticle_reconstruction ("220 1 r\r\n")
      [("Hello\r\n"), ("..escaped\r\n"), ("World\r\n")] [] ("1")
      (by decide) (by decide)⟩

/-- C4 counterexample: with bare-LF line endings the terminator is NOT
recognised.  A body whose lines end in bare LF and whose terminator
arrives as `".\n"` makes `fetchArticle` run off the end of the stream and
fail with a read error instead of completing, and likewise the listing
reader never sees `".\n"` as the end of the multi-line body. -/
theorem bareLF_terminator_counterexample :
    (fetchArticle (("220 1 r\r\n") :: ("Hello\n") :: (".\n") :: []) ("1")
      = (Except.error FetchErr.readFailed, [])) ∧
    (readXoverLines 0 0 (fun _ => none)
        (("1\ta\tb\tc\td\te\tf\tg\n") :: (".\n") :: []) []
      = none) :=
  ⟨rfl, rfl⟩

/-- C4 amended: the line reader delimits lines by LF, so body lines that
end in bare LF are read and passed through as lines, but a multi-line
body is recognised as complete only by the exact line `".\r\n"`; a
terminator sent as bare-LF `".\n"` is treated as ordinary body content.
Every successfully reconstructed article still ends with `".\r\n"`
because the consumed terminator is replaced by a synthetic `".\r\n"`. -/
theorem bareLF_lines_terminator_exact (resp : String) (rest : List String)
    (num : String) (hresp : hasPrefixGo resp ("220 ") = true) :
    (fetchArticle (resp :: (".\n") :: (".\r\n") :: rest) num
      = (Except.ok (resp ++ (".\n") ++ (".\r\n")), rest)) ∧
    (∀ (ls : List String) (acc : String),
      readArticleBody ((".\n") :: ls) acc = readArticleBody ls (acc ++ (".\n"))) ∧
    (∀ (inp : List String) (n a : String) (r : List String),
      fetchArticle inp n = (Except.ok a, r) → ∃ s, a = s ++ (".\r\n")) := by
  refine ⟨?_, ?_, ?_⟩
  · simp only [fetchArticle, hresp, if_true]
    rfl
  · intro ls acc
    rfl
  · intro inp n a r h
    cases inp with
    | nil => simp [fetchArticle] at h
    | cons resp' rest' =>
      simp only [fetchArticle] at h
      by_cases hp : hasPrefixGo resp' ("220 ")
      · simp only [hp, if_true] at h
        cases hrb : readArticleBody rest' resp' with
        | none => rw [hrb] at h; simp at h
        | some pr =>
          obtain ⟨b, r'⟩ := pr
          rw [hrb] at h
          simp only [Prod.mk.injEq] at h
          exact ⟨b, (Except.ok.injEq _ _ ▸ h.1).symm⟩
      · simp only [hp, if_false] at h
        simp at h

/-- Witness for the amended C4. -/
theorem bareLF_lines_terminator_exact_witness :
    (hasPrefixGo ("220 1 r\r\n") ("220 ") = true) ∧
    ((fetchArticle (("220 1 r\r\n") :: (".\n") :: (".\r\n") :: []) ("1")
      = (Except.ok (("220 1 r\r\n") ++ (".\n") ++ (".\r\n")), [])) ∧
    (∀ (ls : List String) (acc : String),
      readArticleBody ((".\n") :: ls) acc = readArticleBody ls (acc ++ (".\n"))) ∧
    (∀ (inp : List String) (n a : String) (r : List String),
      fetchArticle inp n = (Except.ok a, r) → ∃ s, a = s ++ (".\r\n"))) :=
  ⟨by decide, bareLF_lines_terminator_exact ("220 1 r\r\n") [] ("1") (by decide)⟩

/-- C6: with an age filter `days > 0`, a well-formed listing line (at
least 8 tab fields, not the terminator) is kept exactly when its field 4
— preprocessed by `parseDate`: whitespace trimmed and a parenthetical
suffix stripped before the library parse — yields a date that is not
strictly before the cutoff `now − days`; an unparsable or too-old date
drops the line; with `days = 0` every well-formed line is kept with no
date parsing at all. -/
theorem xover_date_filter (days cutoff : Int) (tp : String → Option Int)
    (l : String) (ls acc : List String)
    (hdays : 0 < days) (hl : l ≠ (".\r\n"))
    (hlen : ¬ (splitOnChar '\t' l).length < 8) :
    (parseDate tp ((splitOnChar '\t' l).getD 3 ("")) = none →
      readXoverLines days cutoff tp (l :: ls) acc
        = readXoverLines days cutoff tp ls acc) ∧
    (∀ d : Int, parseDate tp ((splitOnChar '\t' l).getD 3 ("")) = some d →
      d < cutoff →
      readXoverLines days cutoff tp (l :: ls) acc
        = readXoverLines days cutoff tp ls acc) ∧
    (∀ d : Int, parseDate tp ((splitOnChar '\t' l).getD 3 ("")) = some d →
      ¬ d < cutoff →
      readXoverLines days cutoff tp (l :: ls) acc
        = readXoverLines days cutoff tp ls
            (acc ++ [(splitOnChar '\t' l).getD 0 ("")])) ∧
    (parseDate tp = fun dateStr => tp (goParenTrunc (goTrimSpace dateStr))) ∧
    (∀ (cutoff' : Int) (tp' : String → Option Int) (l' : String)
        (ls' acc' : List String),
      l' ≠ (".\r\n") → ¬ (splitOnChar '\t' l').length < 8 →
      readXoverLines 0 cutoff' tp' (l' :: ls') acc'
        = readXoverLines 0 cutoff' tp' ls'
            (acc' ++ [(splitOnChar '\t' l').getD 0 ("")])) := by
  refine ⟨?_, ?_, ?_, rfl, ?_⟩
  · intro hparse
    simp only [readXoverLines, if_neg hl, if_neg hlen, if_pos hdays, hparse]
  · intro d hparse hlt
    simp only [readXoverLines, if_neg hl, if_neg hlen, if_pos hdays, hparse,
      if_pos hlt]
  · intro d hparse hge
    simp only [readXoverLines, if_neg hl, if_neg hlen, if_pos hdays, hparse,
      if_neg hge]
  · intro cutoff' tp' l' ls' acc' hl' hlen'
    simp only [readXoverLines, if_neg hl', if_neg hlen',
      if_neg (show ¬ (0 : Int) < 0 by omega)]

/-- Witness for C6: a line whose date field parses to 20 against cutoff
10 is kept. -/
theorem xover_date_filter_witness :
    ((0 : Int) < 1 ∧ ("123\ts\ta\t20\tm\tr\t7\t2\r\n") ≠ (".\r\n") ∧
      ¬ (splitOnChar '\t' ("123\ts\ta\t20\tm\tr\t7\t2\r\n")).length < 8) ∧
    ((parseDate (fun s => if s = ("20") then some 20 else none)
        ((splitOnChar '\t' ("123\ts\ta\t20\tm\tr\t7\t2\r\n")).getD 3 ("")) = none →
      readXoverLines 1 10 (fun s => if s = ("20") then some 20 else none)
          (("123\ts\ta\t20\tm\tr\t7\t2\r\n") :: []) []
        = readXoverLines 1 10 (fun s => if s = ("20") then some 20 else none) [] []) ∧
    (∀ d : Int, parseDate (fun s => if s = ("20") then some 20 else none)
        ((splitOnChar '\t' ("123\ts\ta\t20\tm\tr\t7\t2\r\n")).getD 3 ("")) = some d →
      d < 10 →
      readXoverLines 1 10 (fun s => if s = ("20") then some 20 else none)
          (("123\ts\ta\t20\tm\tr\t7\t2\r\n") :: []) []
        = readXoverLines 1 10 (fun s => if s = ("20") then some 20 else none) [] []) ∧
    (∀ d : Int, parseDate (fun s => if s = ("20") then some 20 else none)
        ((splitOnChar '\t' ("123\ts\ta\t20\tm\tr\t7\t2\r\n")).getD 3 ("")) = some d →
      ¬ d < 10 →
      readXoverLines 1 10 (fun s => if s = ("20") then some 20 else none)
          (("123\ts\ta\t20\tm\tr\t7\t2\r\n") :: []) []
        = readXoverLines 1 10 (fun s => if s = ("20") then some 20 else none) []
            ([] ++ [(splitOnChar '\t' ("123\ts\ta\t20\tm\tr\t7\t2\r\n")).getD 0 ("")])) ∧
    (parseDate (fun s => if s = ("20") then some 20 else none)
      = fun dateStr => (fun s => if s = ("20") then some 20 else none)
          (goParenTrunc (goTrimSpace dateStr))) ∧
    (∀ (cutoff' : Int) (tp' : String → Option Int) (l' : String)
        (ls' acc' : List String),
      l' ≠ (".\r\n") → ¬ (splitOnChar '\t' l').length < 8 →
      readXoverLines 0 cutoff' tp' (l' :: ls') acc'
        = readXoverLines 0 cutoff' tp' ls'
            (acc' ++ [(splitOnChar '\t' l').getD 0 ("")]))) :=
  ⟨⟨by decide, by decide, by decide⟩,
    xover_date_filter 1 10 (fun s => if s = ("20") then some 20 else none)
      ("123\ts\ta\t20\tm\tr\t7\t2\r\n") [] [] (by decide) (by decide) (by decide)⟩

/-- C9: a failed fetch of one article (bad status or read error) is
non-fatal: the loop records the ARTICLE command and a diagnostic, skips
the article and continues with the remaining numbers of the batch with
identical results, and whatever was already appended to the output is
preserved — every successful loop result extends the previously
accumulated article list. -/
theorem fetch_failure_nonfatal (input : List String) (n : String)
    (ns : List String) (e : FetchErr) (rest : List String)
    (hfail : fetchArticle input n = (Except.error e, rest)) :
    ((fetchLoop input (n :: ns)).arts = (fetchLoop rest ns).arts) ∧
    ((fetchLoop input (n :: ns)).rest = (fetchLoop rest ns).rest) ∧
    ((fetchLoop input (n :: ns)).cmds = articleCmd n :: (fetchLoop rest ns).cmds) ∧
    ((fetchLoop input (n :: ns)).warns = fetchWarnMsg n :: (fetchLoop rest ns).warns) ∧
    (∀ (days cutoff : Int) (ul so : Bool) (tp : String → Option Int)
        (B first last : Int) (inp : List String) (bs : Int)
        (arts cmds : List String) (saves : List Int) (warns : List String)
        (res : List String),
      (batchLoop days cutoff ul so tp B first last inp bs arts cmds saves
          warns).result = Except.ok res →
      ∃ t, res = arts ++ t) := by
  refine ⟨?_, ?_, ?_, ?_, ?_⟩
  · simp only [fetchLoop, hfail]
  · simp only [fetchLoop, hfail]
  · simp only [fetchLoop, hfail]
  · simp only [fetchLoop, hfail]
  · intro days cutoff ul so tp B first last inp bs arts cmds saves warns res h
    exact (batchLoop_ok_spec days cutoff ul so tp B first last inp.length inp
      le_rfl bs arts cmds saves warns res h).1

/-- Witness for C9: the middle article of a batch of three is
unavailable; the two other fetches succeed around it. -/
theorem fetch_failure_nonfatal_witness :
    (fetchArticle (("430 no such article\r\n") :: ("220 7 r\r\n") ::
        ("B\r\n") :: (".\r\n") :: []) ("6")
      = (Except.error (FetchErr.unavailable ("430 no such article\r\n")),
          ("220 7 r\r\n") :: ("B\r\n") :: (".\r\n") :: [])) ∧
    (((fetchLoop (("430 no such article\r\n") :: ("220 7 r\r\n") ::
        ("B\r\n") :: (".\r\n") :: []) (("6") :: ("7") :: [])).arts
      = (fetchLoop (("220 7 r\r\n") :: ("B\r\n") :: (".\r\n") :: [])
          (("7") :: [])).arts) ∧
    ((fetchLoop (("430 no such article\r\n") :: ("220 7 r\r\n") ::
        ("B\r\n") :: (".\r\n") :: []) (("6") :: ("7") :: [])).rest
      = (fetchLoop (("220 7 r\r\n") :: ("B\r\n") :: (".\r\n") :: [])
          (("7") :: [])).rest) ∧
    ((fetchLoop (("430 no such article\r\n") :: ("220 7 r\r\n") ::
        ("B\r\n") :: (".\r\n") :: []) (("6") :: ("7") :: [])).cmds
      = articleCmd ("6") :: (fetchLoop (("220 7 r\r\n") :: ("B\r\n") ::
          (".\r\n") :: []) (("7") :: [])).cmds) ∧
    ((fetchLoop (("430 no such article\r\n") :: ("220 7 r\r\n") ::
        ("B\r\n") :: (".\r\n") :: []) (("6") :: ("7") :: [])).warns
      = fetchWarnMsg ("6") :: (fetchLoop (("220 7 r\r\n") :: ("B\r\n") ::
          (".\r\n") :: []) (("7") :: [])).warns) ∧
    (∀ (days cutoff : Int) (ul so : Bool) (tp : String → Option Int)
        (B first last : Int) (inp : List String) (bs : Int)
        (arts cmds : List String) (saves : List Int) (warns : List String)
        (res : List String),
      (batchLoop days cutoff ul so tp B first last inp bs arts cmds saves
          warns).result = Except.ok res →
      ∃ t, res = arts ++ t)) :=
  ⟨rfl,
    fetch_failure_nonfatal (("430 no such article\r\n") :: ("220 7 r\r\n") ::
      ("B\r\n") :: (".\r\n") :: []) ("6") (("7") :: [])
      (FetchErr.unavailable ("430 no such article\r\n"))
      (("220 7 r\r\n") :: ("B\r\n") :: (".\r\n") :: []) rfl⟩

/-- C10: the listing reader applies no dot-unstuffing: a non-terminator
listing line is split on tabs exactly as received, so a line that begins
with two dots keeps both in its first field; only the article-body reader
in `fetchArticle` strips the first of a doubled leading dot. -/
theorem xover_lines_not_unstuffed (days cutoff : Int)
    (tp : String → Option Int) (l : String) (ls acc : List String)
    (t : List Char) (hdata : l.data = '.' :: '.' :: t)
    (hlen : ¬ (splitOnChar '\t' l).length < 8) (hdays : ¬ 0 < days) :
    (readXoverLines days cutoff tp (l :: ls) acc
      = readXoverLines days cutoff tp ls
          (acc ++ [(splitOnChar '\t' l).getD 0 ("")])) ∧
    (hasPrefixGo ((splitOnChar '\t' l).getD 0 ("")) ("..") = true) ∧
    (∀ (ls' : List String) (acc' : String),
      readArticleBody (l :: ls') acc'
        = readArticleBody ls' (acc' ++ String.mk (l.data.drop 1))) ∧
    (readXoverLines 0 0 (fun _ => none)
        (("..9\ta\tb\tc\td\te\tf\tg\r\n") :: (".\r\n") :: []) []
      = some ([("..9")], [])) ∧
    (unstuff ("..9") = (".9")) := by
  have hlne : l ≠ (".\r\n") := by
    intro he
    rw [he] at hdata
    have : ('.' :: '\r' :: '\n' :: [] : List Char) = '.' :: '.' :: t := hdata
    simp at this
  refine ⟨?_, ?_, ?_, rfl, rfl⟩
  · simp only [readXoverLines, if_neg hlne, if_neg hlen, if_neg hdays]
  · have hhead : (splitOnChar '\t' l).getD 0 ("")
        = String.mk (l.data.takeWhile (fun x : Char => x ≠ '\t')) := by
      unfold splitOnChar
      rw [splitOnCharAux_head]
      simp
    rw [hhead, hdata]
    have h1 : (('.' : Char) ≠ '\t') = True := by simp
    apply hasPrefixGo_dotdot _ (t.takeWhile (fun x : Char => x ≠ '\t'))
    simp [List.takeWhile_cons]
  · intro ls' acc'
    have hpp : hasPrefixGo l ("..") = true := hasPrefixGo_dotdot l t hdata
    simp only [readArticleBody, if_neg hlne, unstuff, hpp, if_true]

/-- Witness for C10 on the concrete double-dot listing line. -/
theorem xover_lines_not_unstuffed_witness :
    (("..9\ta\tb\tc\td\te\tf\tg\r\n") : String).data
        = '.' :: '.' :: ("9\ta\tb\tc\td\te\tf\tg\r\n" : String).data ∧
    ((readXoverLines 0 0 (fun _ => none)
        (("..9\ta\tb\tc\td\te\tf\tg\r\n") :: []) []
      = readXoverLines 0 0 (fun _ => none) []
          ([] ++ [(splitOnChar '\t' ("..9\ta\tb\tc\td\te\tf\tg\r\n")).getD 0 ("")])) ∧
    (hasPrefixGo ((splitOnChar '\t' ("..9\ta\tb\tc\td\te\tf\tg\r\n")).getD 0 (""))
        ("..") = true) ∧
    (∀ (ls' : List String) (acc' : String),
      readArticleBody (("..9\ta\tb\tc\td\te\tf\tg\r\n") :: ls') acc'
        = readArticleBody ls'
            (acc' ++ String.mk ((("..9\ta\tb\tc\td\te\tf\tg\r\n") : String).data.drop 1)))) ∧
    (readXoverLines 0 0 (fun _ => none)
        (("..9\ta\tb\tc\td\te\tf\tg\r\n") :: (".\r\n") :: []) []
      = some ([("..9")], [])) ∧
    (unstuff ("..9") = (".9")) := by
  refine ⟨by decide, ?_⟩
  have h := xover_lines_not_unstuffed 0 0 (fun _ => none)
    ("..9\ta\tb\tc\td\te\tf\tg\r\n") [] [] (("9\ta\tb\tc\td\te\tf\tg\r\n") : String).data
    (by decide) (by decide) (by decide)
  exact ⟨⟨h.1, h.2.1, h.2.2.1⟩, h.2.2.2.1, h.2.2.2.2⟩

/-- C2: with resume mode on and a saved position `L` for the group, after
a GROUP response parsing to the range `(first, last)`: if `L ≥ last` the
engine returns an empty successful result having written only the GROUP
command (no listing, no fetch, no save); if `first ≤ L < last` the run
continues as the batching loop started at `L + 1` (and the first listing
command covers `[L+1, min(L+B, last)]`); otherwise the loop starts at the
unchanged `first`. -/
theorem resume_adjustment_spec (resp : String) (rest : List String)
    (group : String) (days B cutoff : Int) (savedLast : Option Int)
    (tp : String → Option Int) (so : Bool) (L first last : Int)
    (hresp : hasPrefixGo resp ("211 ") = true)
    (hlen : ¬ (goFields resp).length < 4)
    (hfirst : atoi ((goFields resp).getD 2 ("")) = some first)
    (hlast : atoi ((goFields resp).getD 3 ("")) = some last)
    (hsaved : savedLast = some L) :
    (last ≤ L →
      getRecentArticles (resp :: rest) group days true B savedLast cutoff tp so
        = ⟨[groupCmd group], [], [], Except.ok []⟩) ∧
    (first ≤ L ∧ L < last →
      getRecentArticles (resp :: rest) group days true B savedLast cutoff tp so
        = batchLoop days cutoff true so tp B (L + 1) last rest (L + 1) []
            [groupCmd group] [] []) ∧
    (L < last → ¬ (first ≤ L ∧ L < last) →
      getRecentArticles (resp :: rest) group days true B savedLast cutoff tp so
        = batchLoop days cutoff true so tp B first last rest first []
            [groupCmd group] [] []) ∧
    (first ≤ L ∧ L < last →
      ∃ t, (getRecentArticles (resp :: rest) group days true B savedLast
              cutoff tp so).commands
        = [groupCmd group] ++ [xoverCmd (L + 1) (min (L + 1 + B - 1) last)] ++ t) := by
  subst hsaved
  refine ⟨?_, ?_, ?_, ?_⟩
  · intro h
    simp only [getRecentArticles, hresp, if_true, if_neg hlen, hfirst, hlast,
      if_pos h]
  · intro h
    simp only [getRecentArticles, hresp, if_true, if_neg hlen, hfirst, hlast,
      if_neg (show ¬ last ≤ L by omega), if_pos h]
  · intro h1 h2
    simp only [getRecentArticles, hresp, if_true, if_neg hlen, hfirst, hlast,
      if_neg (show ¬ last ≤ L by omega), if_neg h2]
  · intro h
    have heq : getRecentArticles (resp :: rest) group days true B (some L)
        cutoff tp so
        = batchLoop days cutoff true so tp B (L + 1) last rest (L + 1) []
            [groupCmd group] [] [] := by
      simp only [getRecentArticles, hresp, if_true, if_neg hlen, hfirst, hlast,
        if_neg (show ¬ last ≤ L by omega), if_pos h]
    rw [heq]
    have := batchLoop_first_cmd days cutoff true so tp B (L + 1) last rest
      (L + 1) [] [groupCmd group] [] [] (by omega)
    simpa using this

/-- Witness for C2: current range `(1, 1000)`, saved position `1000`
(the claim's scenario) — the run returns an empty success after only the
GROUP command. -/
theorem resume_adjustment_spec_witness :
    (hasPrefixGo ("211 1000 1 1000 alt.test\r\n") ("211 ") = true ∧
      ¬ (goFields ("211 1000 1 1000 alt.test\r\n")).length < 4 ∧
      atoi ((goFields ("211 1000 1 1000 alt.test\r\n")).getD 2 ("")) = some 1 ∧
      atoi ((goFields ("211 1000 1 1000 alt.test\r\n")).getD 3 ("")) = some 1000 ∧
      (1000 : Int) ≤ 1000) ∧
    (getRecentArticles (("211 1000 1 1000 alt.test\r\n") :: []) ("alt.test")
        0 true 500 (some 1000) 0 (fun _ => none) true
      = ⟨[groupCmd ("alt.test")], [], [], Except.ok []⟩) :=
  ⟨⟨by decide, by decide, by decide, by decide, by decide⟩,
    (resume_adjustment_spec ("211 1000 1 1000 alt.test\r\n") [] ("alt.test")
      0 500 0 (some 1000) (fun _ => none) true 1000 1 1000
      (by decide) (by decide) (by decide) (by decide) rfl).1 (by decide)⟩

/-- C5 counterexample: a run in which every protocol exchange succeeds and
zero articles are fetched does NOT always fail — on the resume path
(saved `last_article = 1000`, range `(1, 1000)`) the engine returns an
empty successful result after only the GROUP command, not the
no-matching-articles failure. -/
theorem resume_empty_success_counterexample :
    ((getRecentArticles (("211 1000 1 1000 alt.test\r\n") :: []) ("alt.test")
        0 true 500 (some 1000) 0 (fun _ => none) true).result
      = Except.ok []) ∧
    ((getRecentArticles (("211 1000 1 1000 alt.test\r\n") :: []) ("alt.test")
        0 true 500 (some 1000) 0 (fun _ => none) true).commands
      = [groupCmd ("alt.test")]) ∧
    ((getRecentArticles (("211 1000 1 1000 alt.test\r\n") :: []) ("alt.test")
        0 true 500 (some 1000) 0 (fun _ => none) true).result
      ≠ Except.error EngineErr.noArticlesFound) := by
  refine ⟨rfl, rfl, ?_⟩
  intro h
  rw [show (getRecentArticles (("211 1000 1 1000 alt.test\r\n") :: [])
      ("alt.test") 0 true 500 (some 1000) 0 (fun _ => none) true).result
    = Except.ok [] from rfl] at h
  exact Except.noConfusion h

/-- C5 amended: whenever the batching loop actually runs, a successful
result is never empty — zero fetched articles make the run fail with the
no-matching-articles error; the only way an empty list comes back with
success is the resume early-exit, i.e. resume mode is on and the saved
position is at or beyond the parsed range end (and then no listing or
fetch command was issued). -/
theorem empty_ok_only_on_resume_path (input : List String) (group : String)
    (days : Int) (ul : Bool) (B : Int) (savedLast : Option Int) (cutoff : Int)
    (tp : String → Option Int) (so : Bool)
    (hres : (getRecentArticles input group days ul B savedLast cutoff tp
        so).result = Except.ok []) :
    ul = true ∧ ∃ L lastv : Int, savedLast = some L ∧
      atoi ((goFields (input.headD (""))).getD 3 ("")) = some lastv ∧
      lastv ≤ L := by
  cases input with
  | nil => simp [getRecentArticles] at hres
  | cons resp rest =>
    by_cases h1 : hasPrefixGo resp ("211 ")
    case neg => simp [getRecentArticles, h1] at hres
    case pos =>
    by_cases h2 : (goFields resp).length < 4
    case pos => simp [getRecentArticles, h1, h2] at hres
    case neg =>
    cases hf : atoi ((goFields resp).getD 2 ("")) with
    | none =>
      simp only [getRecentArticles, h1, if_true, if_neg h2, hf] at hres
      simp at hres
    | some first =>
      cases hl : atoi ((goFields resp).getD 3 ("")) with
      | none =>
        simp only [getRecentArticles, h1, if_true, if_neg h2, hf, hl] at hres
        simp at hres
      | some last =>
        cases ul with
        | false =>
          exfalso
          simp only [getRecentArticles, h1, if_true, if_neg h2, hf, hl] at hres
          exact (batchLoop_ok_spec days cutoff false so tp B first last
            rest.length rest le_rfl first [] [groupCmd group] [] [] [] hres).2 rfl
        | true =>
          cases savedLast with
          | none =>
            exfalso
            simp only [getRecentArticles, h1, if_true, if_neg h2, hf, hl] at hres
            exact (batchLoop_ok_spec days cutoff true so tp B first last
              rest.length rest le_rfl first [] [groupCmd group] [] [] [] hres).2 rfl
          | some L =>
            by_cases h3 : last ≤ L
            · refine ⟨rfl, L, last, rfl, ?_, h3⟩
              simpa using hl
            · exfalso
              simp only [getRecentArticles, h1, if_true, if_neg h2, hf, hl,
                if_neg h3] at hres
              exact (batchLoop_ok_spec days cutoff true so tp B _ last
                rest.length rest le_rfl _ [] [groupCmd group] [] [] [] hres).2 rfl

/-- Witness for the amended C5 at the resume-path run. -/
theorem empty_ok_only_on_resume_path_witness :
    ((getRecentArticles (("211 1000 1 1000 alt.test\r\n") :: []) ("alt.test")
        0 true 500 (some 1000) 0 (fun _ => none) true).result
      = Except.ok []) ∧
    (true = true ∧ ∃ L lastv : Int, (some 1000 : Option Int) = some L ∧
      atoi ((goFields (((("211 1000 1 1000 alt.test\r\n") :: [])).headD
          (""))).getD 3 ("")) = some lastv ∧
      lastv ≤ L) :=
  ⟨rfl, empty_ok_only_on_resume_path (("211 1000 1 1000 alt.test\r\n") :: [])
    ("alt.test") 0 true 500 (some 1000) 0 (fun _ => none) true rfl⟩

/-- C7: after a batch ending at `batchEnd`, the group state is persisted
exactly when resume mode is on and `batchEnd > first` (the resume-adjusted
range start); since the first batch ends at `min(first + B − 1, last) ≥
first`, it is skipped exactly when that end equals the range start; and a
failed persist changes nothing observable — commands, saved positions and
the final result are identical whether saving succeeds or fails. -/
theorem bookmark_persist_iff (ul : Bool) (first last B e : Int)
    (saves : List Int) (hB : 1 ≤ B) (hfl : first ≤ last) :
    (persistAfterBatch ul first e saves = saves ++ [e] ↔ (ul = true ∧ first < e)) ∧
    (¬ (ul = true ∧ first < e) → persistAfterBatch ul first e saves = saves) ∧
    (first ≤ min (first + B - 1) last) ∧
    (persistAfterBatch true first (min (first + B - 1) last) saves = saves
      ↔ min (first + B - 1) last = first) ∧
    (∀ (input : List String) (group : String) (days cutoff : Int)
        (savedLast : Option Int) (tp : String → Option Int),
      ((getRecentArticles input group days ul B savedLast cutoff tp true).commands
        = (getRecentArticles input group days ul B savedLast cutoff tp false).commands) ∧
      ((getRecentArticles input group days ul B savedLast cutoff tp true).saves
        = (getRecentArticles input group days ul B savedLast cutoff tp false).saves) ∧
      ((getRecentArticles input group days ul B savedLast cutoff tp true).result
        = (getRecentArticles input group days ul B savedLast cutoff tp false).result)) := by
  refine ⟨?_, ?_, by omega, ?_, ?_⟩
  · by_cases hc : ul = true ∧ first < e
    · simp [persistAfterBatch, hc]
    · simp [persistAfterBatch, hc]
  · intro h
    simp [persistAfterBatch, h]
  · by_cases hc : first < min (first + B - 1) last
    · rw [show persistAfterBatch true first (min (first + B - 1) last) saves
          = saves ++ [min (first + B - 1) last] from by simp [persistAfterBatch, hc]]
      constructor
      · intro h
        have := congrArg List.length h
        simp at this
      · intro h
        rw [h] at hc
        exact absurd hc (lt_irrefl first)
    · rw [show persistAfterBatch true first (min (first + B - 1) last) saves
          = saves from by simp [persistAfterBatch, hc]]
      exact ⟨fun _ => by omega, fun _ => rfl⟩
  · intro input group days cutoff savedLast tp
    exact getRecent_saveOk_indep input group days ul B savedLast cutoff tp

/-- Witness for C7 at `first = 1`, `last = 10`, `B = 5`, `batchEnd = 3`. -/
theorem bookmark_persist_iff_witness :
    ((1 : Int) ≤ 5 ∧ (1 : Int) ≤ 10) ∧
    ((persistAfterBatch true 1 3 [] = [] ++ [3] ↔ (true = true ∧ (1 : Int) < 3)) ∧
    (¬ (true = true ∧ (1 : Int) < 3) → persistAfterBatch true 1 3 [] = []) ∧
    ((1 : Int) ≤ min (1 + 5 - 1) 10) ∧
    (persistAfterBatch true 1 (min (1 + 5 - 1) 10) [] = []
      ↔ min (1 + 5 - 1) (10 : Int) = 1) ∧
    (∀ (input : List String) (group : String) (days cutoff : Int)
        (savedLast : Option Int) (tp : String → Option Int),
      ((getRecentArticles input group days true 5 savedLast cutoff tp true).commands
        = (getRecentArticles input group days true 5 savedLast cutoff tp false).commands) ∧
      ((getRecentArticles input group days true 5 savedLast cutoff tp true).saves
        = (getRecentArticles input group days true 5 savedLast cutoff tp false).saves) ∧
      ((getRecentArticles input group days true 5 savedLast cutoff tp true).result
        = (getRecentArticles input group days true 5 savedLast cutoff tp false).result))) :=
  ⟨⟨by decide, by decide⟩, bookmark_persist_iff true 1 10 5 3 [] (by decide) (by decide)⟩

/-- C8: saved positions are monotone: within one run the persisted
`last_article` values are strictly increasing, and when a saved position
`L` was loaded for the group, every value the run persists is strictly
greater than `L` (resume adjustment plus the `batchEnd > first` guard). -/
theorem saved_positions_monotone (input : List String) (group : String)
    (days : Int) (ul : Bool) (B : Int) (savedLast : Option Int) (cutoff : Int)
    (tp : String → Option Int) (so : Bool) (L : Int) (hB : 1 ≤ B)
    (hsaved : savedLast = some L) :
    List.Chain' (fun a b : Int => a < b)
      (getRecentArticles input group days ul B savedLast cutoff tp so).saves ∧
    (∀ v ∈ (getRecentArticles input group days ul B savedLast cutoff tp
        so).saves, L < v) := by
  subst hsaved
  cases input with
  | nil => exact ⟨by simp [getRecentArticles], by simp [getRecentArticles]⟩
  | cons resp rest =>
    by_cases h1 : hasPrefixGo resp ("211 ")
    case neg => constructor <;> simp [getRecentArticles, h1]
    case pos =>
    by_cases h2 : (goFields resp).length < 4
    case pos => constructor <;> simp [getRecentArticles, h1, h2]
    case neg =>
    cases hf : atoi ((goFields resp).getD 2 ("")) with
    | none =>
      simp only [getRecentArticles, h1, if_true, if_neg h2, hf]
      exact ⟨by simp, by simp⟩
    | some first =>
      cases hl : atoi ((goFields resp).getD 3 ("")) with
      | none =>
        simp only [getRecentArticles, h1, if_true, if_neg h2, hf, hl]
        exact ⟨by simp, by simp⟩
      | some last =>
        cases ul with
        | false =>
          simp only [getRecentArticles, h1, if_true, if_neg h2, hf, hl]
          obtain ⟨hc, hm⟩ := batchLoop_saves_spec days cutoff false so tp B
            first last hB rest.length rest le_rfl first [] [groupCmd group]
            [] [] (by simp) (by simp)
          refine ⟨hc, ?_⟩
          intro v hv
          rcases hm v hv with h | ⟨habs, _⟩
          · simp at h
          · cases habs
        | true =>
          by_cases h3 : last ≤ L
          · simp only [getRecentArticles, h1, if_true, if_neg h2, hf, hl,
              if_pos h3]
            exact ⟨by simp, by simp⟩
          · simp only [getRecentArticles, h1, if_true, if_neg h2, hf, hl,
              if_neg h3]
            obtain ⟨hc, hm⟩ := batchLoop_saves_spec days cutoff true so tp B
              (if first ≤ L ∧ L < last then L + 1 else first) last hB
              rest.length rest le_rfl
              (if first ≤ L ∧ L < last then L + 1 else first)
              [] [groupCmd group] [] [] (by simp) (by simp)
            refine ⟨hc, ?_⟩
            intro v hv
            rcases hm v hv with h | ⟨_, hfv, _⟩
            · simp at h
            · by_cases h4 : first ≤ L ∧ L < last
              · rw [if_pos h4] at hfv
                omega
              · rw [if_neg h4] at hfv
                omega

/-- Witness for C8 (hypotheses at a concrete run). -/
theorem saved_positions_monotone_witness :
    ((1 : Int) ≤ 500 ∧ (some 7 : Option Int) = some 7) ∧
    (List.Chain' (fun a b : Int => a < b)
      (getRecentArticles [] ("alt.test") 0 true 500 (some 7) 0
        (fun _ => none) true).saves ∧
    (∀ v ∈ (getRecentArticles [] ("alt.test") 0 true 500 (some 7) 0
        (fun _ => none) true).saves, (7 : Int) < v)) :=
  ⟨⟨by decide, rfl⟩,
    saved_positions_monotone [] ("alt.test") 0 true 500 (some 7) 0
      (fun _ => none) true 7 (by decide) rfl⟩
